import Mathlib

/-!
Verification development for the SudPraktika text-processing scripts
(`scripts/parse_criminal_code.py` and `scripts/telegram_injector.py`).

Strings are modelled as `List Char` (Python `str` is a sequence of code
points).  Each Python helper is embedded as an executable Lean function,
translated line by line from the source:

* `create_slug` / `create_slug_tg` — the two `create_slug` methods
  (`parse_criminal_code.py:109-129`, `telegram_injector.py:238-268`);
* `detect_articles`, `contextualAnalysis` — `TelegramInjector.detect_articles`
  and `TelegramInjector._contextual_analysis` (`telegram_injector.py:145-207`);
* `parse_structure` — `CriminalCodeParser.parse_structure`
  (`parse_criminal_code.py:38-107`);
* `run_intake` — the per-post loop of `TelegramInjector.run`
  (`telegram_injector.py:370-399`).

The regular expressions used by the scripts are embedded via a small
backtracking matcher (`matchRe` / `findAll`) over an explicit syntax tree
(`RE`); alternatives are enumerated in the same preference order that the
Python `re` backtracking engine uses (leftmost match, greedy/lazy
quantifiers, first-alternative preference), and scanning is non-overlapping
from the left as in `re.finditer` / `re.findall`.
-/

set_option maxRecDepth 40000

namespace SudPraktika

/-! ## Character classes

All classes are written against `Char.toNat` so that facts about them can be
discharged by `omega`.  They model the CPython `str`/`re` behaviour on the
character repertoire the scripts deal with (ASCII plus the Cyrillic block).
-/

/-- Python `\s` (`str.strip()` whitespace): ASCII whitespace plus the Unicode
space separators.  Note that ZERO WIDTH SPACE (U+200B) is *not* whitespace in
Python, which is why `parse_structure` strips it separately. -/
def pyIsSpace (c : Char) : Bool :=
  decide (c.toNat = 32) || decide (9 ≤ c.toNat ∧ c.toNat ≤ 13) ||
  decide (c.toNat = 0x85) || decide (c.toNat = 0xA0) || decide (c.toNat = 0x1680) ||
  decide (0x2000 ≤ c.toNat ∧ c.toNat ≤ 0x200A) ||
  decide (c.toNat = 0x2028) || decide (c.toNat = 0x2029) ||
  decide (c.toNat = 0x202F) || decide (c.toNat = 0x205F) || decide (c.toNat = 0x3000)

/-- The invisible separators stripped by `parse_structure`
(U+00A0, U+2000..U+200B, U+2028, U+2029; `parse_criminal_code.py:43`). -/
def isInvis (c : Char) : Bool :=
  decide (c.toNat = 0xA0) || decide (0x2000 ≤ c.toNat ∧ c.toNat ≤ 0x200B) ||
  decide (c.toNat = 0x2028) || decide (c.toNat = 0x2029)

/-- ASCII decimal digit (`\d` as the scripts use it on their inputs). -/
def isDigitB (c : Char) : Bool := decide (48 ≤ c.toNat ∧ c.toNat ≤ 57)

/-- ASCII lowercase letter. -/
def isLowerB (c : Char) : Bool := decide (97 ≤ c.toNat ∧ c.toNat ≤ 122)

/-- The hyphen-minus character. -/
def isHyphB (c : Char) : Bool := decide (c.toNat = 45)

/-- The class kept by `re.sub(r'[^a-z0-9\s-]', '', slug)`
(`parse_criminal_code.py:125`, `telegram_injector.py:256`). -/
def keepChar (c : Char) : Bool := isLowerB c || isDigitB c || pyIsSpace c || isHyphB c

/-- Characters a finished slug may contain. -/
def isSlugChar (c : Char) : Bool := isLowerB c || isDigitB c || isHyphB c

/-- Python `\w` restricted to the repertoire handled by the scripts:
ASCII alphanumerics, underscore, and the Cyrillic block U+0400–U+04FF. -/
def pyIsWord (c : Char) : Bool :=
  isDigitB c || isLowerB c || decide (65 ≤ c.toNat ∧ c.toNat ≤ 90) ||
  decide (c.toNat = 95) || decide (0x400 ≤ c.toNat ∧ c.toNat ≤ 0x4FF)

/-- Python `str.lower()` on the repertoire the scripts handle: ASCII `A-Z` and
the Ukrainian alphabet (А-Я, Ґ, Є, І, Ї) map to their lowercase forms. -/
def toLowerUk (c : Char) : Char :=
  if 0x410 ≤ c.toNat ∧ c.toNat ≤ 0x42F then Char.ofNat (c.toNat + 0x20)
  else if c.toNat = 0x490 then Char.ofNat 0x491
  else if c.toNat = 0x404 then Char.ofNat 0x454
  else if c.toNat = 0x406 then Char.ofNat 0x456
  else if c.toNat = 0x407 then Char.ofNat 0x457
  else if 65 ≤ c.toNat ∧ c.toNat ≤ 90 then Char.ofNat (c.toNat + 32)
  else c

/-! ## Run collapsing, stripping, substring search -/

/-- `re.sub(p+, rep, s)` for a character class `p`: every maximal run of
characters satisfying `p` is replaced by the single character `rep`.
Used for `\s+ → ' '`, `\s+ → '-'` and `-+ → '-'` in the scripts. -/
def collapseRuns (p : Char → Bool) (rep : Char) : List Char → List Char
  | [] => []
  | [c] => if p c then [rep] else [c]
  | c :: d :: rest =>
    if p c then
      if p d then collapseRuns p rep (d :: rest)
      else rep :: collapseRuns p rep (d :: rest)
    else c :: collapseRuns p rep (d :: rest)

/-- No two adjacent characters of `l` both satisfy `p` (so every `p`-run has
length one).  On such lists a run-collapsing substitution is the identity. -/
def noRun (p : Char → Bool) : List Char → Bool
  | [] => true
  | [_] => true
  | c :: d :: rest => !(p c && p d) && noRun p (d :: rest)

/-- Remove the trailing run of characters satisfying `p`. -/
def dropTrailing (p : Char → Bool) (l : List Char) : List Char :=
  (l.reverse.dropWhile p).reverse

/-- Python `str.strip(chars)`: remove the leading and trailing runs of
characters satisfying `p`. -/
def pyStripChars (p : Char → Bool) (l : List Char) : List Char :=
  dropTrailing p (l.dropWhile p)

/-- Does `s` start with `pat`? -/
def startsWith : List Char → List Char → Bool
  | [], _ => true
  | _ :: _, [] => false
  | p :: ps, c :: cs => p == c && startsWith ps cs

/-- Python substring test `pat in s`. -/
def containsSub (pat : List Char) : List Char → Bool
  | [] => pat.isEmpty
  | c :: rest => startsWith pat (c :: rest) || containsSub pat rest

/-! ## Slug derivation

`CriminalCodeParser.create_slug` (`parse_criminal_code.py:109-129`) and
`TelegramInjector.create_slug` (`telegram_injector.py:238-268`).  The two
methods are identical except that the Telegram variant calls `.strip()` on
the lowercased title before transliterating.
-/

/-- The transliteration dictionary shared by both `create_slug` methods,
in source (insertion) order. -/
def translitTable : List (Char × List Char) :=
  [('а', ['a']), ('б', ['b']), ('в', ['v']), ('г', ['g']), ('ґ', ['g']),
   ('д', ['d']), ('е', ['e']), ('є', ['y', 'e']), ('ж', ['z', 'h']),
   ('з', ['z']), ('и', ['y']), ('і', ['i']), ('ї', ['y', 'i']), ('й', ['y']),
   ('к', ['k']), ('л', ['l']), ('м', ['m']), ('н', ['n']), ('о', ['o']),
   ('п', ['p']), ('р', ['r']), ('с', ['s']), ('т', ['t']), ('у', ['u']),
   ('ф', ['f']), ('х', ['h']), ('ц', ['c']), ('ч', ['c', 'h']),
   ('ш', ['s', 'h']), ('щ', ['s', 'c', 'h']), ('ь', []), ('ю', ['y', 'u']),
   ('я', ['y', 'a'])]

/-- The sequential `slug.replace(ua, en)` loop: for a single-character needle,
`str.replace` is exactly a character-wise expansion, applied once per table
entry in insertion order. -/
def applyTranslit (s : List Char) : List Char :=
  translitTable.foldl (fun acc kv => acc.flatMap fun c => if c = kv.1 then kv.2 else [c]) s

/-- The tail shared verbatim by both `create_slug` methods:
keep `[a-z0-9\s-]`, collapse `\s+` to `-`, collapse `-+` to `-`,
strip `-` from both ends, truncate to 50 characters. -/
def slugCore (s : List Char) : List Char :=
  (pyStripChars isHyphB
    (collapseRuns isHyphB '-'
      (collapseRuns pyIsSpace '-'
        (s.filter keepChar)))).take 50

/-- `CriminalCodeParser.create_slug`: lowercase, transliterate, then `slugCore`. -/
def create_slug (title : List Char) : List Char :=
  slugCore (applyTranslit (title.map toLowerUk))

/-- `TelegramInjector.create_slug`: lowercase, `.strip()`, transliterate,
then `slugCore`. -/
def create_slug_tg (title : List Char) : List Char :=
  slugCore (applyTranslit (pyStripChars pyIsSpace (title.map toLowerUk)))

/-! ## Python `int()`

The scripts apply `int(...)` only to `\d+` captures.  `pyInt` parses a
non-empty all-digit string and models the `ValueError` branch by `none`. -/

/-- `int(s)` for a digit string; `none` models a raised `ValueError`. -/
def pyInt (s : List Char) : Option Int :=
  if s ≠ [] ∧ s.all isDigitB then
    some (s.foldl (fun a c => a * 10 + ((c.toNat : Int) - 48)) 0)
  else none

/-! ## A small regular-expression engine

Just enough of Python `re` for the seven patterns the scripts compile:
character classes, literals, greedy/lazy class stars, greedy optional
pieces, alternation, capture groups, a lookahead, and `$`.
-/

/-- Regular-expression syntax.  Stars are restricted to character classes,
which covers every quantifier in the scripts' patterns. -/
inductive RE where
  | eps : RE
  | chr (p : Char → Bool) : RE
  | cat (a b : RE) : RE
  | alt (a b : RE) : RE
  | starC (p : Char → Bool) (lzy : Bool) : RE
  | opt (r : RE) (lzy : Bool) : RE
  | grp (n : Nat) (r : RE) : RE
  | look (r : RE) : RE
  | eos : RE

/-- The suffixes reachable by consuming a run of `p`-characters, shortest
consumption first (the lazy preference order). -/
def classRun (p : Char → Bool) : List Char → List (List Char)
  | [] => [[]]
  | c :: rest => (c :: rest) :: (if p c then classRun p rest else [])

/-- All complete matches of `re` against a prefix of `s`, each as
`(remaining suffix, captured groups)`, enumerated in exactly the preference
order of Python's backtracking engine.  The head of the list is the match
`re.match` would return. -/
def matchRe : RE → List Char → List (List Char × List (Nat × List Char))
  | RE.eps, s => [(s, [])]
  | RE.chr _, [] => []
  | RE.chr p, c :: rest => if p c then [(rest, [])] else []
  | RE.cat a b, s =>
      (matchRe a s).flatMap fun q =>
        (matchRe b q.1).map fun q2 => (q2.1, q.2 ++ q2.2)
  | RE.alt a b, s => matchRe a s ++ matchRe b s
  | RE.starC p lzy, s =>
      (if lzy then classRun p s else (classRun p s).reverse).map fun t => (t, [])
  | RE.opt r lzy, s =>
      if lzy then (s, []) :: matchRe r s else matchRe r s ++ [(s, [])]
  | RE.grp n r, s =>
      (matchRe r s).map fun q => (q.1, q.2 ++ [(n, s.take (s.length - q.1.length))])
  | RE.look r, s => if (matchRe r s).isEmpty then [] else [(s, [])]
  | RE.eos, [] => [([], [])]
  | RE.eos, _ :: _ => []

/-- Non-overlapping left-to-right scan (`re.finditer` / `re.findall`):
at each position take the preferred match if any, then resume after it
(advancing one character on a zero-width match, as Python does). -/
def scanAux (re : RE) : Nat → List Char → List (List (Nat × List Char))
  | 0, _ => []
  | fuel + 1, s =>
    match (matchRe re s).head? with
    | some q =>
      if q.1.length < s.length then q.2 :: scanAux re fuel q.1
      else
        match s with
        | [] => [q.2]
        | _ :: rest => q.2 :: scanAux re fuel rest
    | none =>
      match s with
      | [] => []
      | _ :: rest => scanAux re fuel rest

/-- `re.findall(pattern, s)`: the group lists of all non-overlapping
matches, left to right.  The fuel `s.length + 1` is enough because every
step of the scan strictly shortens the text. -/
def findAll (re : RE) (s : List Char) : List (List (Nat × List Char)) :=
  scanAux re (s.length + 1) s

/-- `match.group(n)`, with `[]` (Python `''`) for a group that did not
participate in the match. -/
def getGroup (g : List (Nat × List Char)) (n : Nat) : List Char :=
  ((g.find? fun q => q.1 == n).map Prod.snd).getD []

/-- Sequencing a list of pattern pieces. -/
def reSeq (l : List RE) : RE := l.foldr RE.cat RE.eps

/-- A case-insensitive literal (all the scripts' patterns are compiled with
`re.IGNORECASE`); case folding via `toLowerUk`. -/
def litCI (s : List Char) : RE :=
  reSeq (s.map fun c => RE.chr fun d => toLowerUk d == toLowerUk c)

/-- A greedy `p+`. -/
def rePlus (p : Char → Bool) : RE := RE.cat (RE.chr p) (RE.starC p false)

/-- `\s*` (greedy). -/
def spStar : RE := RE.starC pyIsSpace false

/-- `\s+` (greedy). -/
def spPlus : RE := rePlus pyIsSpace

/-- `\.?` (greedy). -/
def dotOpt : RE := RE.opt (RE.chr fun c => c == '.') false

/-- `(\d+)` without the group wrapper. -/
def reDigits : RE := rePlus isDigitB

/-! ## Citation Classifier (`TelegramInjector`) -/

/-- `self.article_patterns` (`telegram_injector.py:85-90`), in order:
1. `ст(?:аття)?\s*\.?\s*(\d+)(?:\s*(?:частина|ч)\s*\.?\s*(\d+))?`
2. `(\d+)\s*(?:частина|ч)\s*\.?\s*(\d+)\s*КК`
3. `КК\s*(?:України)?\s*(\d+)`
4. `Кримінальний\s*кодекс.*?(\d+)`  (`.` excludes the newline: no DOTALL). -/
def article_patterns : List RE :=
  [reSeq [litCI "ст".data, RE.opt (litCI "аття".data) false, spStar, dotOpt, spStar,
          RE.grp 1 reDigits,
          RE.opt (reSeq [spStar, RE.alt (litCI "частина".data) (litCI "ч".data),
                         spStar, dotOpt, spStar, RE.grp 2 reDigits]) false],
   reSeq [RE.grp 1 reDigits, spStar, RE.alt (litCI "частина".data) (litCI "ч".data),
          spStar, dotOpt, spStar, RE.grp 2 reDigits, spStar, litCI "КК".data],
   reSeq [litCI "КК".data, spStar, RE.opt (litCI "України".data) false, spStar,
          RE.grp 1 reDigits],
   reSeq [litCI "Кримінальний".data, spStar, litCI "кодекс".data,
          RE.starC (fun c => !(c == (Char.ofNat 10))) true, RE.grp 1 reDigits]]

/-- The apostrophe character (U+0027), written `\'` in the Python source. -/
def apo : Char := Char.ofNat 39

/-- `self.article_keywords` (`telegram_injector.py:35-82`), in source order. -/
def article_keywords : List (Int × List (List Char)) :=
  [(185, ["крадіжка".data, "таємно".data, "чужого майна".data, "привласнення".data]),
   (186, ["грабіж".data, "відкрито".data, "заволодіння".data]),
   (187, ["розбій".data, "напад".data, "озброєний".data, "погроза застосування".data]),
   (189, ["вимагання".data, "погроза розголошення".data, "шантаж".data]),
   (190, ["шахрайство".data, "обман".data, "зловживання довірою".data]),
   (115, ["вбивство".data, "умисне позбавлення життя".data, "позбавлення життя".data]),
   (116, ["перевищення меж необхідної оборони".data, "необхідна оборона".data]),
   (118, ["вбивство у стані сильного душевного хвилювання".data]),
   (119, ["вбивство через необережність".data, "необережність".data]),
   (120, ["доведення до самогубства".data]),
   (121, ["умисне тяжке тілесне ушкодження".data, "тяжке тілесне".data]),
   (122, ["умисне середньої тяжкості тілесне ушкодження".data]),
   (125, ["умисне легке тілесне ушкодження".data]),
   (126, ["побої і мордування".data]),
   (127, ["катування".data]),
   (307, ["наркотичні засоби".data, "психотропні речовини".data, "наркотики".data]),
   (309, ["незаконне виробництво наркотичних засобів".data]),
   (286, ["порушення правил безпеки дорожнього руху".data, "ДТП".data]),
   (152, ["згвалтування".data]),
   (153, ["примушування до вступу в статевий зв".data ++ [apo] ++ "язок".data]),
   (364, ["зловживання владою або службовим становищем".data]),
   (365, ["перевищення влади або службових повноважень".data]),
   (366, ["службове підроблення".data]),
   (368, ["прийняття пропозиції, обіцянки або одержання неправомірної вигоди службовою особою".data]),
   (369, ["незаконне збагачення".data]),
   (382, ["невиконання судового рішення".data]),
   (384, ["примушування давати показання".data]),
   (387, ["розголошення даних оперативно-розшукової діяльності".data]),
   (408, ["самовільне залишення військової частини або місця служби".data]),
   (409, ["дезертирство".data]),
   (425, ["непокора".data])]

/-- The `contexts` dictionary of `_contextual_analysis`
(`telegram_injector.py:192-200`), in source order. -/
def contexts : List (List Char × List Int) :=
  [("власність".data, [185, 186, 187, 189, 190]),
   ("життя".data, [115, 116, 118, 119]),
   ("здоров".data ++ [apo] ++ "я".data, [121, 122, 125, 126, 127]),
   ("наркотики".data, [307, 309]),
   ("дорожній рух".data, [286]),
   ("службов".data, [364, 365, 366, 368, 369]),
   ("хабар".data, [368, 369])]

/-- `TelegramInjector._contextual_analysis` (`telegram_injector.py:187-207`):
for each topical key that occurs in the (already lowercased) text, extend the
result with the first two associated article numbers; finally truncate the
whole result to five entries (`articles[:5]`). -/
def contextualAnalysis (text : List Char) : List Int :=
  (contexts.foldl
    (fun acc kv => if containsSub kv.1 text then acc ++ kv.2.take 2 else acc)
    []).take 5

/-- Python-set insertion, modelled as append-if-absent.  The final
`sorted(list(s))` makes the iteration order of the set irrelevant. -/
def insertSet (s : List Int) (n : Int) : List Int :=
  if n ∈ s then s else s ++ [n]

/-- One match of the pattern pass (`telegram_injector.py:161-169`):
`int(match.group(1))`, kept only when `1 <= article_num <= 447`; a
`ValueError`/`IndexError` skips the match. -/
def patternAdd (s : List Int) (g : List (Nat × List Char)) : List Int :=
  match pyInt (getGroup g 1) with
  | some n => if 1 ≤ n ∧ n ≤ 447 then insertSet s n else s
  | none => s

/-- Pass 1 of `detect_articles`: the regex patterns over the lowered text. -/
def patternPass (textLower : List Char) (s : List Int) : List Int :=
  article_patterns.foldl (fun s re => (findAll re textLower).foldl patternAdd s) s

/-- Pass 2 of `detect_articles` (`telegram_injector.py:172-177`): for each
article, add its number if any keyword occurs in the text (the `break` after
the first hit only short-circuits; `any` has the same effect on a set). -/
def keywordPass (textLower : List Char) (s : List Int) : List Int :=
  article_keywords.foldl
    (fun s kv =>
      if kv.2.any (fun kw => containsSub (kw.map toLowerUk) textLower) then
        insertSet s kv.1
      else s)
    s

/-- Pass 3 of `detect_articles`: `detected_articles.update(_contextual_analysis(...))`. -/
def contextPass (textLower : List Char) (s : List Int) : List Int :=
  (contextualAnalysis textLower).foldl insertSet s

/-- `TelegramInjector.detect_articles` (`telegram_injector.py:145-185`):
three passes union into a set, returned as `sorted(list(detected_articles))`. -/
def detect_articles (text : List Char) : List Int :=
  let textLower := text.map toLowerUk
  List.insertionSort (· ≤ ·)
    (contextPass textLower (keywordPass textLower (patternPass textLower [])))

/-! ## Document Segmenter (`CriminalCodeParser.parse_structure`) -/

/-- An article record as assembled at `parse_criminal_code.py:88-93`. -/
structure Article where
  number : Int
  title : List Char
  content : List Char
  slug : List Char
deriving DecidableEq

/-- The sort key of `processed_articles.sort(key=lambda x: x['number'])`. -/
def articleLe (a b : Article) : Prop := a.number ≤ b.number

instance : DecidableRel articleLe := fun a b => Int.decLe a.number b.number

instance : IsTotal Article articleLe := ⟨fun a b => Int.le_total a.number b.number⟩

instance : IsTrans Article articleLe := ⟨fun _ _ _ h1 h2 => le_trans h1 h2⟩

/-- `[А-ЯІЇЄҐ]` under `re.IGNORECASE`: both cases of А-Я (U+0410–U+044F as a
single range) together with both cases of І, Ї, Є, Ґ. -/
def ukLetterCI (c : Char) : Bool :=
  decide (0x410 ≤ c.toNat ∧ c.toNat ≤ 0x44F) ||
  decide (c.toNat = 0x404) || decide (c.toNat = 0x454) ||
  decide (c.toNat = 0x406) || decide (c.toNat = 0x456) ||
  decide (c.toNat = 0x407) || decide (c.toNat = 0x457) ||
  decide (c.toNat = 0x490) || decide (c.toNat = 0x491)

/-- `[А-Я]` under `re.IGNORECASE` (the negated class of the section pattern). -/
def cyrAYaCI (c : Char) : Bool := decide (0x410 ≤ c.toNat ∧ c.toNat ≤ 0x44F)

/-- A roman-numeral character `[IVX]` under `re.IGNORECASE`. -/
def ivxCI (c : Char) : Bool :=
  toLowerUk c == 'i' || toLowerUk c == 'v' || toLowerUk c == 'x'

/-- Article rule 1 (`parse_criminal_code.py:55`), compiled with
`re.DOTALL | re.IGNORECASE`:
`Стаття\s+(\d+)\.?\s*([А-ЯІЇЄҐ][^\.]*?)\.?\s*(.*?)(?=Стаття\s+\d+|$)`. -/
def artRE1 : RE :=
  reSeq [litCI "Стаття".data, spPlus, RE.grp 1 reDigits, dotOpt, spStar,
         RE.grp 2 (RE.cat (RE.chr ukLetterCI) (RE.starC (fun c => !(c == '.')) true)),
         dotOpt, spStar, RE.grp 3 (RE.starC (fun _ => true) true),
         RE.look (RE.alt (reSeq [litCI "Стаття".data, spPlus, reDigits]) RE.eos)]

/-- Article rule 2 (`parse_criminal_code.py:56`):
`(\d+)\.?\s*([А-ЯІЇЄҐ][^\.]*?)\.?\s*(.*?)(?=\d+\.\s*[А-ЯІЇЄҐ]|$)`. -/
def artRE2 : RE :=
  reSeq [RE.grp 1 reDigits, dotOpt, spStar,
         RE.grp 2 (RE.cat (RE.chr ukLetterCI) (RE.starC (fun c => !(c == '.')) true)),
         dotOpt, spStar, RE.grp 3 (RE.starC (fun _ => true) true),
         RE.look (RE.alt (reSeq [reDigits, RE.chr (fun c => c == '.'), spStar,
                                 RE.chr ukLetterCI]) RE.eos)]

/-- The section pattern (`parse_criminal_code.py:46`):
`РОЗДІЛ\s+([IVX]+)\.?\s*([А-ЯІЇЄҐ][^А-Я]*?)(?=РОЗДІЛ|$)`. -/
def sectionRE : RE :=
  reSeq [litCI "РОЗДІЛ".data, spPlus, RE.grp 1 (rePlus ivxCI), dotOpt, spStar,
         RE.grp 2 (RE.cat (RE.chr ukLetterCI) (RE.starC (fun c => !(cyrAYaCI c)) true)),
         RE.look (RE.alt (litCI "РОЗДІЛ".data) RE.eos)]

/-- Text normalization (`parse_criminal_code.py:42-43`): collapse `\s+` to a
single space, then replace each invisible separator by a space. -/
def normalizeText (text : List Char) : List Char :=
  (collapseRuns pyIsSpace ' ' text).map fun c => if isInvis c then ' ' else c

/-- The `for pattern in article_patterns: ... if matches: extend; break` loop
(`parse_criminal_code.py:61-66`): the match list of the first rule that
produces at least one match, else `[]`. -/
def firstNonEmpty : List RE → List Char → List (List (Nat × List Char))
  | [], _ => []
  | r :: rest, t =>
    let ms := findAll r t
    if ms.isEmpty then firstNonEmpty rest t else ms

/-- The raw article matches for a (normalized) document. -/
def article_matches (t : List Char) : List (List (Nat × List Char)) :=
  firstNonEmpty [artRE1, artRE2] t

/-- Title cleanup (`parse_criminal_code.py:78-79`):
`re.sub(r'^\W+|\W+$', '', title)` then `re.sub(r'\s+', ' ', title)`. -/
def cleanTitle (t : List Char) : List Char :=
  collapseRuns pyIsSpace ' ' (pyStripChars (fun c => !(pyIsWord c)) t)

/-- Content cleanup (`parse_criminal_code.py:82`):
`re.sub(r'\s+', ' ', content).strip()`. -/
def cleanContent (c : List Char) : List Char :=
  pyStripChars pyIsSpace (collapseRuns pyIsSpace ' ' c)

/-- The truncation marker appended at `parse_criminal_code.py:86`. -/
def dots : List Char := ['.', '.', '.']

/-- The length cap (`parse_criminal_code.py:85-86`): bodies longer than 2000
characters are cut to 2000 and get the `"..."` marker. -/
def truncContent (c : List Char) : List Char :=
  if 2000 < c.length then c.take 2000 ++ dots else c

/-- Per-match processing (`parse_criminal_code.py:70-96`).  A match is a
3-tuple of groups (so `len(match) >= 3` always holds); `int(number)` failing
with `ValueError` (`none`) discards the match. -/
def processMatch (g : List (Nat × List Char)) : Option Article :=
  match pyInt (getGroup g 1) with
  | none => none
  | some n =>
    some { number := n
           title := cleanTitle (getGroup g 2)
           content := truncContent (cleanContent (getGroup g 3))
           slug := create_slug (cleanTitle (getGroup g 2)) }

/-- The processed (not yet sorted) article list of one `parse_structure` run. -/
def processed_articles (text : List Char) : List Article :=
  (article_matches (normalizeText text)).filterMap processMatch

/-- `CriminalCodeParser.parse_structure` (`parse_criminal_code.py:38-107`):
returns the processed articles sorted ascending by number, together with the
`(roman numeral, title)` section matches. -/
def parse_structure (text : List Char) : List Article × List (List Char × List Char) :=
  let t := normalizeText text
  (List.insertionSort articleLe (processed_articles text),
   (findAll sectionRE t).map fun g => (getGroup g 1, getGroup g 2))

/-! ## Idempotent post intake (`TelegramInjector.run`) -/

/-- A Telegram channel post as assembled in `get_channel_posts`
(`telegram_injector.py:129-134`); `chat_id` is irrelevant to the loop. -/
structure TgPost where
  id : Int
  text : List Char
  date : Int
deriving DecidableEq

/-- The per-post loop of `TelegramInjector.run` (`telegram_injector.py:370-399`).
State: (decision records emitted so far, `new_processed`).  A post whose id is
in the *loaded* ledger is skipped; otherwise it is classified, a decision
record `(id, article_numbers)` is emitted when articles were found and the
file write succeeded (`fileOk` models the `try/except` around file creation),
and the id is appended to `new_processed` unconditionally. -/
def run_intake (posts : List TgPost) (processed : List Int) (fileOk : TgPost → Bool) :
    List (Int × List Int) × List Int :=
  posts.foldl
    (fun acc post =>
      if post.id ∈ processed then acc
      else
        let arts := detect_articles post.text
        (if arts ≠ [] then
           (if fileOk post then acc.1 ++ [(post.id, arts)] else acc.1)
         else acc.1,
         acc.2 ++ [post.id]))
    ([], processed)

/-! ## Lemmas about the string helpers -/

theorem map_id_of {f : Char → Char} {l : List Char} (h : ∀ c ∈ l, f c = c) :
    l.map f = l := by
  induction l with
  | nil => rfl
  | cons c rest ih =>
    simp only [List.map_cons]
    rw [h c (by simp), ih fun d hd => h d (by simp [hd])]

theorem flatMap_id_of {f : Char → List Char} {l : List Char} (h : ∀ c ∈ l, f c = [c]) :
    l.flatMap f = l := by
  induction l with
  | nil => rfl
  | cons c rest ih =>
    have hc := h c (by simp)
    have ih' := ih fun d hd => h d (by simp [hd])
    simp [hc, ih']

theorem collapse_id_of_not {p : Char → Bool} {rep : Char} {l : List Char}
    (h : ∀ c ∈ l, p c = false) : collapseRuns p rep l = l := by
  induction l with
  | nil => rfl
  | cons c rest ih =>
    have hc := h c (by simp)
    have ih' := ih fun d hd => h d (by simp [hd])
    cases rest with
    | nil => simp [collapseRuns, hc]
    | cons d rest' => simp [collapseRuns, hc, ih']

theorem mem_collapseRuns {p : Char → Bool} {rep : Char} :
    ∀ {l : List Char} {a : Char}, a ∈ collapseRuns p rep l →
      a = rep ∨ (a ∈ l ∧ p a = false) := by
  intro l
  induction l with
  | nil => intro a ha; simp [collapseRuns] at ha
  | cons c rest ih =>
    intro a ha
    cases rest with
    | nil =>
      by_cases hc : p c = true
      · simp [collapseRuns, hc] at ha
        exact Or.inl ha
      · simp [collapseRuns, hc] at ha
        subst ha
        exact Or.inr ⟨by simp, by simpa using hc⟩
    | cons d rest' =>
      by_cases hc : p c = true
      · by_cases hd : p d = true
        · rw [collapseRuns, if_pos hc, if_pos hd] at ha
          rcases ih ha with h1 | ⟨h2, h3⟩
          · exact Or.inl h1
          · exact Or.inr ⟨by simp [h2], h3⟩
        · rw [collapseRuns, if_pos hc, if_neg hd] at ha
          rcases List.mem_cons.mp ha with h1 | h1
          · exact Or.inl h1
          · rcases ih h1 with h2 | ⟨h2, h3⟩
            · exact Or.inl h2
            · exact Or.inr ⟨by simp [h2], h3⟩
      · rw [collapseRuns, if_neg hc] at ha
        rcases List.mem_cons.mp ha with h1 | h1
        · subst h1
          exact Or.inr ⟨by simp, by simpa using hc⟩
        · rcases ih h1 with h2 | ⟨h2, h3⟩
          · exact Or.inl h2
          · exact Or.inr ⟨by simp [h2], h3⟩

theorem noRun_cons {p : Char → Bool} {c : Char} {l : List Char}
    (hc : p c = false) (hl : noRun p l = true) : noRun p (c :: l) = true := by
  cases l with
  | nil => rfl
  | cons d rest => simp [noRun, hc, hl]

theorem noRun_tail {p : Char → Bool} {c : Char} {l : List Char}
    (h : noRun p (c :: l) = true) : noRun p l = true := by
  cases l with
  | nil => rfl
  | cons d rest =>
    simp only [noRun, Bool.and_eq_true] at h
    exact h.2

theorem noRun_collapseRuns {p : Char → Bool} {rep : Char} :
    ∀ l : List Char, noRun p (collapseRuns p rep l) = true := by
  intro l
  induction l with
  | nil => rfl
  | cons c rest ih =>
    cases rest with
    | nil =>
      by_cases hc : p c = true <;> simp [collapseRuns, hc, noRun]
    | cons d rest' =>
      by_cases hc : p c = true
      · by_cases hd : p d = true
        · rw [collapseRuns, if_pos hc, if_pos hd]
          exact ih
        · obtain ⟨X, hX⟩ : ∃ X, collapseRuns p rep (d :: rest') = d :: X := by
            cases rest' <;> simp [collapseRuns, hd]
          have ih' := ih
          rw [hX] at ih'
          rw [collapseRuns, if_pos hc, if_neg hd, hX]
          simp [noRun, hd, ih']
      · have hc' : p c = false := by simpa using hc
        rw [collapseRuns, if_neg hc]
        exact noRun_cons hc' ih

theorem noRun_append_right {p : Char → Bool} :
    ∀ {a b : List Char}, noRun p (a ++ b) = true → noRun p b = true := by
  intro a
  induction a with
  | nil => intro b h; simpa using h
  | cons c a' ih =>
    intro b h
    exact ih (noRun_tail (by simpa using h))

theorem noRun_append_left {p : Char → Bool} :
    ∀ {a b : List Char}, noRun p (a ++ b) = true → noRun p a = true := by
  intro a
  induction a with
  | nil => intro b _; rfl
  | cons c a' ih =>
    intro b h
    cases a' with
    | nil => rfl
    | cons d a'' =>
      simp only [List.cons_append, noRun, Bool.and_eq_true] at h
      have h2 := ih (b := b) (by simpa using h.2)
      simp [noRun, h.1, h2]

theorem mem_dropWhile {p : Char → Bool} {l : List Char} {a : Char}
    (h : a ∈ l.dropWhile p) : a ∈ l := by
  rw [← List.takeWhile_append_dropWhile p l]
  exact List.mem_append_right _ h

theorem head_dropWhile {p : Char → Bool} :
    ∀ {l : List Char} {c : Char} {t : List Char}, l.dropWhile p = c :: t → p c = false := by
  intro l
  induction l with
  | nil => intro c t h; simp at h
  | cons d rest ih =>
    intro c t h
    by_cases hd : p d = true
    · rw [List.dropWhile_cons, if_pos hd] at h
      exact ih h
    · rw [List.dropWhile_cons, if_neg hd] at h
      cases h
      simpa using hd

theorem dropWhile_id {p : Char → Bool} {l : List Char}
    (h : ∀ c, l.head? = some c → p c = false) : l.dropWhile p = l := by
  cases l with
  | nil => rfl
  | cons c rest => rw [List.dropWhile_cons, if_neg (by simp [h c rfl])]

theorem dropTrailing_append (p : Char → Bool) (l : List Char) :
    dropTrailing p l ++ (l.reverse.takeWhile p).reverse = l := by
  rw [dropTrailing, ← List.reverse_append, List.takeWhile_append_dropWhile,
    List.reverse_reverse]

theorem mem_dropTrailing {p : Char → Bool} {l : List Char} {a : Char}
    (h : a ∈ dropTrailing p l) : a ∈ l := by
  rw [← dropTrailing_append p l]
  exact List.mem_append_left _ h

theorem dropTrailing_id {p : Char → Bool} {l : List Char}
    (h : ∀ c, l.getLast? = some c → p c = false) : dropTrailing p l = l := by
  cases hrev : l.reverse with
  | nil =>
    have : l = [] := by simpa using congrArg List.reverse hrev
    simp [this, dropTrailing]
  | cons c t =>
    have hc : l.getLast? = some c := by
      rw [← List.head?_reverse, hrev]
      rfl
    have : l.reverse.dropWhile p = l.reverse := by
      rw [hrev]
      rw [List.dropWhile_cons, if_neg (by simp [h c hc])]
    simp [dropTrailing, this]

theorem head?_mem {l : List Char} {c : Char} (h : l.head? = some c) : c ∈ l := by
  cases l with
  | nil => simp at h
  | cons d rest =>
    cases h
    simp

theorem getLast?_mem {l : List Char} {c : Char} (h : l.getLast? = some c) : c ∈ l := by
  rw [← List.head?_reverse] at h
  rw [← List.mem_reverse]
  exact head?_mem h

theorem collapse_id_of_noRun {p : Char → Bool} {rep : Char}
    (hrep : ∀ c, p c = true → c = rep) :
    ∀ {l : List Char}, noRun p l = true → collapseRuns p rep l = l := by
  intro l
  induction l with
  | nil => intro _; rfl
  | cons c rest ih =>
    intro h
    cases rest with
    | nil =>
      by_cases hc : p c = true
      · rw [collapseRuns, if_pos hc, hrep c hc]
      · rw [collapseRuns, if_neg hc]
    | cons d rest' =>
      have ht := noRun_tail h
      by_cases hc : p c = true
      · have h1 : ¬(p c = true ∧ p d = true) := by
          intro hcd
          simp [noRun, hcd.1, hcd.2] at h
        have hd : p d = false := by
          cases hpd : p d
          · rfl
          · exact absurd ⟨hc, hpd⟩ h1
        rw [collapseRuns, if_pos hc, if_neg (by simp [hd]), ih ht, hrep c hc]
      · rw [collapseRuns, if_neg hc, ih ht]

theorem head?_take : ∀ {n : Nat} {l : List Char} {c : Char},
    (l.take n).head? = some c → l.head? = some c := by
  intro n l c h
  cases n with
  | zero => simp at h
  | succ m =>
    cases l with
    | nil => simp at h
    | cons d r => simpa using h

theorem head?_append_eq {z r w : List Char} {c : Char} (he : z ++ r = w)
    (h : z.head? = some c) : w.head? = some c := by
  subst he
  cases z with
  | nil => simp at h
  | cons d t => simpa using h

/-! ## Character-level facts for the slug development -/

theorem isSlugChar_cases {c : Char} (h : isSlugChar c = true) :
    c.toNat = 45 ∨ (48 ≤ c.toNat ∧ c.toNat ≤ 57) ∨ (97 ≤ c.toNat ∧ c.toNat ≤ 122) := by
  simp only [isSlugChar, isLowerB, isDigitB, isHyphB, Bool.or_eq_true,
    decide_eq_true_eq] at h
  tauto

theorem eq_hyph_of_toNat {c : Char} (h : c.toNat = 45) : c = '-' := by
  have h2 := Char.ofNat_toNat c
  rw [h] at h2
  exact h2.symm

theorem isHyphB_eq_hyph {c : Char} (h : isHyphB c = true) : c = '-' := by
  simp only [isHyphB, decide_eq_true_eq] at h
  exact eq_hyph_of_toNat h

theorem toLowerUk_slug {c : Char} (h : isSlugChar c = true) : toLowerUk c = c := by
  rcases isSlugChar_cases h with h1 | h1 | h1 <;>
  · rw [toLowerUk, if_neg (by omega), if_neg (by omega), if_neg (by omega),
      if_neg (by omega), if_neg (by omega), if_neg (by omega)]

theorem slug_toNat_le {c : Char} (h : isSlugChar c = true) : c.toNat ≤ 122 := by
  rcases isSlugChar_cases h with h1 | h1 | h1 <;> omega

theorem keep_of_slug {c : Char} (h : isSlugChar c = true) : keepChar c = true := by
  simp only [isSlugChar, Bool.or_eq_true] at h
  simp only [keepChar, Bool.or_eq_true]
  tauto

theorem not_space_of_slug {c : Char} (h : isSlugChar c = true) : pyIsSpace c = false := by
  rcases isSlugChar_cases h with h1 | h1 | h1 <;>
  · simp only [pyIsSpace, Bool.or_eq_false_iff, decide_eq_false_iff_not]
    omega

theorem isSlugChar_of_keep {c : Char} (h1 : keepChar c = true) (h2 : pyIsSpace c = false) :
    isSlugChar c = true := by
  simp only [keepChar, isSlugChar, pyIsSpace, isLowerB, isDigitB, isHyphB, Bool.or_eq_true,
    Bool.or_eq_false_iff, decide_eq_true_eq, decide_eq_false_iff_not] at h1 h2 ⊢
  omega

/-! ## The transliteration loop fixes ASCII strings -/

theorem flatMap_subst_id {k : Char} {v : List Char} {s : List Char}
    (h : ∀ c ∈ s, c ≠ k) : (s.flatMap fun c => if c = k then v else [c]) = s :=
  flatMap_id_of fun c hc => if_neg (h c hc)

theorem foldl_translit_id :
    ∀ (tbl : List (Char × List Char)), (∀ kv ∈ tbl, 1072 ≤ kv.1.toNat) →
      ∀ s : List Char, (∀ c ∈ s, c.toNat ≤ 122) →
        tbl.foldl (fun acc kv => acc.flatMap fun c => if c = kv.1 then kv.2 else [c]) s = s := by
  intro tbl
  induction tbl with
  | nil =>
    intro _ s _
    rfl
  | cons kv tbl' ih =>
    intro htbl s hs
    rw [List.foldl_cons,
      flatMap_subst_id fun c hc he => by
        have h1 := hs c hc
        rw [he] at h1
        have h2 := htbl kv (by simp)
        omega]
    exact ih (fun x hx => htbl x (by simp [hx])) s hs

theorem applyTranslit_ascii {s : List Char} (h : ∀ c ∈ s, c.toNat ≤ 122) :
    applyTranslit s = s :=
  foldl_translit_id translitTable (by decide) s h

/-! ## Invariants of `slugCore` output -/

theorem slugCore_mem {s : List Char} {a : Char} (h : a ∈ slugCore s) :
    isSlugChar a = true := by
  rw [slugCore] at h
  have h1 := List.take_subset _ _ h
  rw [pyStripChars] at h1
  have h2 := mem_dropWhile (mem_dropTrailing h1)
  rcases mem_collapseRuns h2 with he | ⟨h3, _⟩
  · subst he
    decide
  · rcases mem_collapseRuns h3 with he | ⟨h5, h6⟩
    · subst he
      decide
    · exact isSlugChar_of_keep (List.mem_filter.mp h5).2 h6

theorem slugCore_noRun (s : List Char) : noRun isHyphB (slugCore s) = true := by
  rw [slugCore]
  have h5 : noRun isHyphB
      (collapseRuns isHyphB '-' (collapseRuns pyIsSpace '-' (s.filter keepChar))) = true :=
    noRun_collapseRuns _
  rw [pyStripChars]
  have h6 : noRun isHyphB
      ((collapseRuns isHyphB '-'
        (collapseRuns pyIsSpace '-' (s.filter keepChar))).dropWhile isHyphB) = true := by
    refine noRun_append_right (a := (collapseRuns isHyphB '-'
      (collapseRuns pyIsSpace '-' (s.filter keepChar))).takeWhile isHyphB) ?_
    rw [List.takeWhile_append_dropWhile]
    exact h5
  have h7 : noRun isHyphB
      (dropTrailing isHyphB ((collapseRuns isHyphB '-'
        (collapseRuns pyIsSpace '-' (s.filter keepChar))).dropWhile isHyphB)) = true := by
    refine noRun_append_left (b := ((((collapseRuns isHyphB '-'
      (collapseRuns pyIsSpace '-'
        (s.filter keepChar))).dropWhile isHyphB).reverse.takeWhile isHyphB).reverse)) ?_
    rw [dropTrailing_append]
    exact h6
  refine noRun_append_left (b := (dropTrailing isHyphB ((collapseRuns isHyphB '-'
    (collapseRuns pyIsSpace '-' (s.filter keepChar))).dropWhile isHyphB)).drop 50) ?_
  rw [List.take_append_drop]
  exact h7

theorem slugCore_head {s : List Char} {c : Char}
    (h : (slugCore s).head? = some c) : isHyphB c = false := by
  rw [slugCore] at h
  have h1 := head?_take h
  rw [pyStripChars] at h1
  have h2 := head?_append_eq (dropTrailing_append isHyphB _) h1
  cases hcase : (collapseRuns isHyphB '-'
      (collapseRuns pyIsSpace '-' (s.filter keepChar))).dropWhile isHyphB with
  | nil =>
    rw [hcase] at h2
    simp at h2
  | cons d t =>
    rw [hcase] at h2
    have hdc : d = c := by simpa using h2
    exact hdc ▸ head_dropWhile hcase

theorem slugCore_len (s : List Char) : (slugCore s).length ≤ 50 := by
  rw [slugCore, List.length_take]
  exact min_le_left _ _

theorem slugCore_id {l : List Char}
    (hmem : ∀ c ∈ l, isSlugChar c = true)
    (hnr : noRun isHyphB l = true)
    (hhead : ∀ c, l.head? = some c → isHyphB c = false)
    (hlast : ∀ c, l.getLast? = some c → isHyphB c = false)
    (hlen : l.length ≤ 50) : slugCore l = l := by
  rw [slugCore,
    List.filter_eq_self.mpr fun a ha => keep_of_slug (hmem a ha),
    collapse_id_of_not fun c hc => not_space_of_slug (hmem c hc),
    collapse_id_of_noRun (fun c hc => isHyphB_eq_hyph hc) hnr,
    pyStripChars, dropWhile_id hhead, dropTrailing_id hlast]
  exact List.take_of_length_le hlen

/-- Re-running the parser variant of `create_slug` on a `slugCore` output is
the identity as soon as the output does not end in a hyphen. -/
theorem slug_second_pass {s : List Char}
    (h : ∀ c, (slugCore s).getLast? = some c → isHyphB c = false) :
    create_slug (slugCore s) = slugCore s := by
  have hmem : ∀ c ∈ slugCore s, isSlugChar c = true := fun c hc => slugCore_mem hc
  have hmap : (slugCore s).map toLowerUk = slugCore s :=
    map_id_of fun c hc => toLowerUk_slug (hmem c hc)
  have htr : applyTranslit (slugCore s) = slugCore s :=
    applyTranslit_ascii fun c hc => slug_toNat_le (hmem c hc)
  rw [create_slug, hmap, htr]
  exact slugCore_id hmem (slugCore_noRun s) (fun c hc => slugCore_head hc) h (slugCore_len s)

/-- The same for the Telegram variant (which also strips whitespace, a no-op
on a slug). -/
theorem slug_second_pass_tg {s : List Char}
    (h : ∀ c, (slugCore s).getLast? = some c → isHyphB c = false) :
    create_slug_tg (slugCore s) = slugCore s := by
  have hmem : ∀ c ∈ slugCore s, isSlugChar c = true := fun c hc => slugCore_mem hc
  have hmap : (slugCore s).map toLowerUk = slugCore s :=
    map_id_of fun c hc => toLowerUk_slug (hmem c hc)
  have hstrip : pyStripChars pyIsSpace (slugCore s) = slugCore s := by
    rw [pyStripChars, dropWhile_id fun c hc => not_space_of_slug (hmem c (head?_mem hc))]
    exact dropTrailing_id fun c hc => not_space_of_slug (hmem c (getLast?_mem hc))
  have htr : applyTranslit (slugCore s) = slugCore s :=
    applyTranslit_ascii fun c hc => slug_toNat_le (hmem c hc)
  rw [create_slug_tg, hmap, hstrip, htr]
  exact slugCore_id hmem (slugCore_noRun s) (fun c hc => slugCore_head hc) h (slugCore_len s)

/-- Claim C1, amended: `create_slug` (both the parser and the Telegram
variant) is idempotent on every title whose slug does not end in a hyphen.
Unrestricted idempotence fails, because `strip('-')` runs before the
50-character truncation, which can therefore re-expose a trailing hyphen
removed only by the second application (see the counterexample theorem). -/
theorem claim_C1_amended (x : List Char) :
    ((create_slug x).getLast? ≠ some '-' →
      create_slug (create_slug x) = create_slug x) ∧
    ((create_slug_tg x).getLast? ≠ some '-' →
      create_slug_tg (create_slug_tg x) = create_slug_tg x) := by
  constructor
  · intro h
    refine slug_second_pass fun c hc => ?_
    cases hp : isHyphB c
    · rfl
    · rw [isHyphB_eq_hyph hp] at hc
      exact absurd hc h
  · intro h
    refine slug_second_pass_tg fun c hc => ?_
    cases hp : isHyphB c
    · rfl
    · rw [isHyphB_eq_hyph hp] at hc
      exact absurd hc h

/-- Claim C1, counterexample: for the 51-character title `('a' * 49) ++ " b"`
the slug is `('a' * 49) ++ "-"` (truncation cuts inside `-b`), and
re-applying either `create_slug` strips the now-trailing hyphen, so
`slugify (slugify x) ≠ slugify x`. -/
theorem claim_C1_counterexample :
    create_slug (create_slug (List.replicate 49 'a' ++ [' ', 'b'])) ≠
      create_slug (List.replicate 49 'a' ++ [' ', 'b']) ∧
    create_slug_tg (create_slug_tg (List.replicate 49 'a' ++ [' ', 'b'])) ≠
      create_slug_tg (List.replicate 49 'a' ++ [' ', 'b']) := by
  constructor
  · decide
  · decide

/-- Witness for the amended C1 theorem: the slug of the title `"Крадіжка"`
does not end in a hyphen, so re-slugging it is the identity. -/
theorem claim_C1_amended_witness :
    create_slug (create_slug "Крадіжка".data) = create_slug "Крадіжка".data ∧
    create_slug_tg (create_slug_tg "Крадіжка".data) = create_slug_tg "Крадіжка".data :=
  ⟨(claim_C1_amended "Крадіжка".data).1 (by decide),
   (claim_C1_amended "Крадіжка".data).2 (by decide)⟩

/-! ## Lemmas about the Citation Classifier -/

theorem mem_insertSet {s : List Int} {n a : Int} (h : a ∈ insertSet s n) :
    a ∈ s ∨ a = n := by
  rw [insertSet] at h
  by_cases hn : n ∈ s
  · rw [if_pos hn] at h
    exact Or.inl h
  · rw [if_neg hn] at h
    rcases List.mem_append.mp h with h1 | h1
    · exact Or.inl h1
    · exact Or.inr (by simpa using h1)

theorem nodup_insertSet {s : List Int} {n : Int} (h : s.Nodup) : (insertSet s n).Nodup := by
  rw [insertSet]
  by_cases hn : n ∈ s
  · rw [if_pos hn]
    exact h
  · rw [if_neg hn]
    simp [List.nodup_append, h, hn]

theorem foldl_mem_range {β : Type} {Q : Int → Prop} {f : List Int → β → List Int} :
    ∀ {l : List β}, (∀ b ∈ l, ∀ s a, a ∈ f s b → a ∈ s ∨ Q a) →
      ∀ {s : List Int} {a : Int}, a ∈ l.foldl f s → a ∈ s ∨ Q a := by
  intro l
  induction l with
  | nil =>
    intro _ s a ha
    exact Or.inl (by simpa using ha)
  | cons b l' ih =>
    intro hf s a ha
    rw [List.foldl_cons] at ha
    rcases ih (fun x hx => hf x (by simp [hx])) ha with h1 | h1
    · exact hf b (by simp) s a h1
    · exact Or.inr h1

theorem foldl_nodup {β : Type} {f : List Int → β → List Int}
    (hf : ∀ s b, s.Nodup → (f s b).Nodup) :
    ∀ {l : List β} {s : List Int}, s.Nodup → (l.foldl f s).Nodup := by
  intro l
  induction l with
  | nil =>
    intro s hs
    simpa using hs
  | cons b l' ih =>
    intro s hs
    rw [List.foldl_cons]
    exact ih (hf s b hs)

theorem patternAdd_mem {s : List Int} {g : List (Nat × List Char)} {a : Int}
    (h : a ∈ patternAdd s g) : a ∈ s ∨ (1 ≤ a ∧ a ≤ 447) := by
  rw [patternAdd] at h
  cases hpi : pyInt (getGroup g 1) with
  | none =>
    rw [hpi] at h
    exact Or.inl h
  | some n =>
    rw [hpi] at h
    have h2 : a ∈ (if 1 ≤ n ∧ n ≤ 447 then insertSet s n else s) := h
    by_cases hr : 1 ≤ n ∧ n ≤ 447
    · rw [if_pos hr] at h2
      rcases mem_insertSet h2 with h1 | h1
      · exact Or.inl h1
      · subst h1
        exact Or.inr hr
    · rw [if_neg hr] at h2
      exact Or.inl h2

theorem patternAdd_nodup {s : List Int} {g : List (Nat × List Char)}
    (h : s.Nodup) : (patternAdd s g).Nodup := by
  rw [patternAdd]
  cases pyInt (getGroup g 1) with
  | none => exact h
  | some n =>
    show (if 1 ≤ n ∧ n ≤ 447 then insertSet s n else s).Nodup
    by_cases hr : 1 ≤ n ∧ n ≤ 447
    · rw [if_pos hr]
      exact nodup_insertSet h
    · rw [if_neg hr]
      exact h

theorem patternPass_mem {t : List Char} {s : List Int} {a : Int}
    (h : a ∈ patternPass t s) : a ∈ s ∨ (1 ≤ a ∧ a ≤ 447) := by
  rw [patternPass] at h
  refine foldl_mem_range (Q := fun a => 1 ≤ a ∧ a ≤ 447) (fun re _ s a ha => ?_) h
  exact foldl_mem_range (Q := fun a => 1 ≤ a ∧ a ≤ 447)
    (fun g _ s a ha2 => patternAdd_mem ha2) ha

theorem kw_keys_range : ∀ kv ∈ article_keywords, 1 ≤ kv.1 ∧ kv.1 ≤ 447 := by decide

theorem keywordPass_mem {t : List Char} {s : List Int} {a : Int}
    (h : a ∈ keywordPass t s) : a ∈ s ∨ (1 ≤ a ∧ a ≤ 447) := by
  rw [keywordPass] at h
  refine foldl_mem_range (Q := fun a => 1 ≤ a ∧ a ≤ 447) (fun kv hkv s a ha => ?_) h
  by_cases hc : kv.2.any (fun kw => containsSub (kw.map toLowerUk) t) = true
  · rw [if_pos hc] at ha
    rcases mem_insertSet ha with h1 | h1
    · exact Or.inl h1
    · subst h1
      exact Or.inr (kw_keys_range kv hkv)
  · rw [if_neg hc] at ha
    exact Or.inl ha

theorem contextFold_eq (t : List Char) :
    ∀ (l : List (List Char × List Int)) (init : List Int),
      l.foldl (fun acc kv => if containsSub kv.1 t then acc ++ kv.2.take 2 else acc) init =
        init ++ (l.filter fun kv => containsSub kv.1 t).flatMap fun kv => kv.2.take 2 := by
  intro l
  induction l with
  | nil =>
    intro init
    simp
  | cons kv l' ih =>
    intro init
    rw [List.foldl_cons]
    by_cases hc : containsSub kv.1 t = true
    · rw [if_pos hc, ih, List.filter_cons_of_pos (by simpa using hc)]
      simp
    · rw [if_neg hc, ih, List.filter_cons_of_neg (by simpa using hc)]

theorem mem_contextualAnalysis {t : List Char} {a : Int}
    (h : a ∈ contextualAnalysis t) : ∃ kv ∈ contexts, a ∈ kv.2 := by
  rw [contextualAnalysis, contextFold_eq] at h
  have h1 := List.take_subset _ _ h
  rw [List.nil_append] at h1
  rcases List.mem_flatMap.mp h1 with ⟨kv, hkv, ha⟩
  exact ⟨kv, (List.mem_filter.mp hkv).1, List.take_subset _ _ ha⟩

theorem ctx_vals_range : ∀ kv ∈ contexts, ∀ n ∈ kv.2, 1 ≤ n ∧ n ≤ 447 := by decide

theorem contextPass_mem {t : List Char} {s : List Int} {a : Int}
    (h : a ∈ contextPass t s) : a ∈ s ∨ (1 ≤ a ∧ a ≤ 447) := by
  rw [contextPass] at h
  refine foldl_mem_range (Q := fun a => 1 ≤ a ∧ a ≤ 447) (fun n hn s a ha => ?_) h
  rcases mem_insertSet ha with h1 | h1
  · exact Or.inl h1
  · subst h1
    rcases mem_contextualAnalysis hn with ⟨kv, hkv, hmem⟩
    exact Or.inr (ctx_vals_range kv hkv a hmem)

theorem detect_prelist_nodup (t : List Char) :
    (contextPass t (keywordPass t (patternPass t []))).Nodup := by
  have h1 : (patternPass t []).Nodup := by
    rw [patternPass]
    refine foldl_nodup (fun s re hs => ?_) List.nodup_nil
    exact foldl_nodup (fun s g hs => patternAdd_nodup hs) hs
  have h2 : (keywordPass t (patternPass t [])).Nodup := by
    rw [keywordPass]
    refine foldl_nodup (fun s kv hs => ?_) h1
    by_cases hc : kv.2.any (fun kw => containsSub (kw.map toLowerUk) t) = true
    · rw [if_pos hc]
      exact nodup_insertSet hs
    · rw [if_neg hc]
      exact hs
  rw [contextPass]
  exact foldl_nodup (fun s n hs => nodup_insertSet hs) h2

/-- Claim C2: every number returned by `detect_articles` lies in `[1, 447]`,
the result has no duplicates, and it is sorted ascending.  The pattern pass
only inserts numbers after the explicit `1 <= article_num <= 447` guard, the
keyword and context tables only hold numbers in range, and the final
`sorted(list(set))` yields a sorted duplicate-free list. -/
theorem claim_C2 (text : List Char) :
    List.Sorted (· ≤ ·) (detect_articles text) ∧ (detect_articles text).Nodup ∧
      ∀ n ∈ detect_articles text, 1 ≤ n ∧ n ≤ 447 := by
  refine ⟨?_, ?_, ?_⟩
  · rw [detect_articles]
    exact List.sorted_insertionSort _ _
  · rw [detect_articles]
    exact ((List.perm_insertionSort _ _).nodup_iff).mpr (detect_prelist_nodup _)
  · intro n hn
    rw [detect_articles, List.mem_insertionSort] at hn
    rcases contextPass_mem hn with h1 | h1
    · rcases keywordPass_mem h1 with h2 | h2
      · rcases patternPass_mem h2 with h3 | h3
        · simp at h3
        · exact h3
      · exact h2
    · exact h1

/-- Witness for C2 at the post text `"ст 1"`, whose classification is `[1]`. -/
theorem claim_C2_witness : (1 : Int) ≥ 1 ∧ (1 : Int) ≤ 447 := by
  have h := (claim_C2 "ст 1".data).2.2 1 (by decide)
  exact ⟨h.1, h.2⟩

/-- Claim C4: both core functions are total by construction (the embedding
returns plain values for every input; the only Python exceptions in these
code paths, `ValueError`/`IndexError` around `int(...)`, are caught and
modelled by the `Option` result of `pyInt`), and on the empty string both
degrade to the empty result: `classify("") = []` and `segment("") = ([], [])`. -/
theorem claim_C4 :
    detect_articles "".data = [] ∧ parse_structure "".data = ([], []) := by
  constructor
  · decide
  · decide

/-- Claim C5: the context pass returns at most five article numbers, and its
result is exactly the first five of the concatenation, in table-iteration
order, of the first two article numbers of each matched topical keyword. -/
theorem claim_C5 (text : List Char) :
    (contextualAnalysis text).length ≤ 5 ∧
      contextualAnalysis text =
        ((contexts.filter fun kv => containsSub kv.1 text).flatMap
          fun kv => kv.2.take 2).take 5 := by
  constructor
  · rw [contextualAnalysis, List.length_take]
    exact min_le_left _ _
  · rw [contextualAnalysis, contextFold_eq, List.nil_append]

/-! ## Lemmas about the Document Segmenter -/

theorem digits_foldl_nonneg :
    ∀ (l : List Char), (∀ c ∈ l, isDigitB c = true) → ∀ a : Int, 0 ≤ a →
      0 ≤ l.foldl (fun a c => a * 10 + ((c.toNat : Int) - 48)) a := by
  intro l
  induction l with
  | nil =>
    intro _ a ha
    simpa using ha
  | cons c l' ih =>
    intro hd a ha
    rw [List.foldl_cons]
    refine ih (fun x hx => hd x (by simp [hx])) _ ?_
    have hc := hd c (by simp)
    simp only [isDigitB, decide_eq_true_eq] at hc
    have h10 : (0 : Int) ≤ a * 10 := by positivity
    omega

theorem pyInt_nonneg {s : List Char} {n : Int} (h : pyInt s = some n) : 0 ≤ n := by
  rw [pyInt] at h
  by_cases hc : s ≠ [] ∧ s.all isDigitB
  · rw [if_pos hc] at h
    cases h
    exact digits_foldl_nonneg s (fun c hcs => List.all_eq_true.mp hc.2 c hcs) 0 le_rfl
  · rw [if_neg hc] at h
    exact absurd h (by simp)

/-- Claim C3, amended: every article number produced by `parse_structure` is
a nonnegative integer (it is `int(...)` of a `\d+` capture), but the lower
bound `1` of the claim is not enforced anywhere: a document containing
`"Стаття 0. ..."` yields an `Article` with `number = 0` (see the
counterexample theorem). -/
theorem claim_C3_amended (text : List Char) :
    ∀ a ∈ (parse_structure text).1, 0 ≤ a.number := by
  intro a ha
  simp only [parse_structure] at ha
  rw [List.mem_insertionSort] at ha
  rcases List.mem_filterMap.mp ha with ⟨g, _, hpm⟩
  rw [processMatch] at hpm
  cases hpi : pyInt (getGroup g 1) with
  | none =>
    rw [hpi] at hpm
    exact absurd hpm (by simp)
  | some n =>
    rw [hpi] at hpm
    cases hpm
    exact pyInt_nonneg hpi

/-- Claim C3, counterexample: on the document `"Стаття 0. А"` the Segmenter
produces an article record with `number = 0`, refuting `1 <= number`. -/
theorem claim_C3_counterexample :
    ¬ ∀ a ∈ (parse_structure "Стаття 0. А".data).1, 1 ≤ a.number := by
  intro h
  have h0 := h (Article.mk 0 "А".data [] "a".data) (by decide)
  exact absurd h0 (by norm_num)

/-- Witness for the amended C3 theorem: the zero-numbered article extracted
from `"Стаття 0. А"` has a nonnegative number. -/
theorem claim_C3_amended_witness :
    (0 : Int) ≤ (Article.mk 0 "А".data [] "a".data).number :=
  claim_C3_amended "Стаття 0. А".data (Article.mk 0 "А".data [] "a".data) (by decide)

/-- Claim C6: every stored article body is `truncContent (cleanContent c)`
for the raw captured body `c`; consequently it is either at most 2000
characters long (the whitespace-normalized source body itself), or exactly
2003 characters long, ending in the three-character `"..."` marker after the
first 2000 characters. -/
theorem claim_C6 (text : List Char) :
    ∀ a ∈ (parse_structure text).1,
      (a.content.length ≤ 2000 ∨
        (a.content.length = 2003 ∧ a.content.drop 2000 = dots)) ∧
      ∃ c, a.content = truncContent (cleanContent c) := by
  intro a ha
  simp only [parse_structure] at ha
  rw [List.mem_insertionSort] at ha
  rcases List.mem_filterMap.mp ha with ⟨g, _, hpm⟩
  rw [processMatch] at hpm
  cases hpi : pyInt (getGroup g 1) with
  | none =>
    rw [hpi] at hpm
    exact absurd hpm (by simp)
  | some n =>
    rw [hpi] at hpm
    cases hpm
    constructor
    · by_cases hlen : 2000 < (cleanContent (getGroup g 3)).length
      · right
        show (truncContent (cleanContent (getGroup g 3))).length = 2003 ∧
          (truncContent (cleanContent (getGroup g 3))).drop 2000 = dots
        rw [truncContent, if_pos hlen]
        have h2 : ((cleanContent (getGroup g 3)).take 2000).length = 2000 := by
          rw [List.length_take]
          omega
        constructor
        · rw [List.length_append, h2]
          rfl
        · have h3 := List.drop_left ((cleanContent (getGroup g 3)).take 2000) dots
          rw [h2] at h3
          exact h3
      · left
        show (truncContent (cleanContent (getGroup g 3))).length ≤ 2000
        rw [truncContent, if_neg hlen]
        omega
    · exact ⟨getGroup g 3, rfl⟩

/-- Witness for C6 at the document `"Стаття 5. А"`, whose single article has
the empty (hence untruncated) body. -/
theorem claim_C6_witness :
    ((Article.mk 5 "А".data [] "a".data).content.length ≤ 2000 ∨
      ((Article.mk 5 "А".data [] "a".data).content.length = 2003 ∧
        (Article.mk 5 "А".data [] "a".data).content.drop 2000 = dots)) ∧
    ∃ c, (Article.mk 5 "А".data [] "a".data).content = truncContent (cleanContent c) :=
  claim_C6 "Стаття 5. А".data (Article.mk 5 "А".data [] "a".data) (by decide)

/-- Claim C7: the Segmenter output is sorted ascending by `number`, and it is
a permutation of the processed match list: duplicate numbers are not
deduplicated (every processed match appears in the output), and sortedness
makes equal numbers adjacent. -/
theorem claim_C7 (text : List Char) :
    List.Sorted (fun a b => a.number ≤ b.number) (parse_structure text).1 ∧
      (parse_structure text).1.Perm (processed_articles text) := by
  constructor
  · simp only [parse_structure]
    exact List.sorted_insertionSort articleLe (processed_articles text)
  · simp only [parse_structure]
    exact List.perm_insertionSort articleLe (processed_articles text)

/-- Claim C8: article extraction uses the first of the two ordered rules that
yields at least one match for the whole document; the second rule's matches
are used only when the first rule matches nothing, and when neither rule
matches, `parse_structure` returns the empty article sequence. -/
theorem claim_C8 (text : List Char) :
    (findAll artRE1 (normalizeText text) ≠ [] →
      article_matches (normalizeText text) = findAll artRE1 (normalizeText text)) ∧
    (findAll artRE1 (normalizeText text) = [] →
      article_matches (normalizeText text) = findAll artRE2 (normalizeText text)) ∧
    (findAll artRE1 (normalizeText text) = [] → findAll artRE2 (normalizeText text) = [] →
      (parse_structure text).1 = []) := by
  have hunfold : article_matches (normalizeText text) =
      (if (findAll artRE1 (normalizeText text)).isEmpty then
        (if (findAll artRE2 (normalizeText text)).isEmpty then
          ([] : List (List (Nat × List Char)))
         else findAll artRE2 (normalizeText text))
       else findAll artRE1 (normalizeText text)) := rfl
  refine ⟨?_, ?_, ?_⟩
  · intro h
    rw [hunfold, if_neg (by simpa [List.isEmpty_iff] using h)]
  · intro h
    rw [hunfold, if_pos (by simpa [List.isEmpty_iff] using h)]
    by_cases h2 : findAll artRE2 (normalizeText text) = []
    · rw [if_pos (by simpa [List.isEmpty_iff] using h2), h2]
    · rw [if_neg (by simpa [List.isEmpty_iff] using h2)]
  · intro h1 h2
    have hm : article_matches (normalizeText text) = [] := by
      rw [hunfold, if_pos (by simpa [List.isEmpty_iff] using h1),
        if_pos (by simpa [List.isEmpty_iff] using h2)]
    simp only [parse_structure, processed_articles, hm, List.filterMap_nil]
    rfl

/-- Witness for C8: on the one-letter document `"я"` neither rule matches, so
the match list falls through to the (empty) second rule's result and the
article output is empty. -/
theorem claim_C8_witness :
    article_matches (normalizeText "я".data) = findAll artRE2 (normalizeText "я".data) ∧
    (parse_structure "я".data).1 = [] :=
  ⟨(claim_C8 "я".data).2.1 (by decide), (claim_C8 "я".data).2.2 (by decide) (by decide)⟩

/-! ## Lemmas about the intake loop -/

/-- Claim C9: a post whose id is already in the loaded ledger is skipped by
the intake loop, so no decision record carrying that id is emitted; the
classification and file-creation calls happen only inside the not-seen
branch. -/
theorem claim_C9 (posts : List TgPost) (processed : List Int) (fileOk : TgPost → Bool)
    (i : Int) (hi : i ∈ processed) :
    ∀ e ∈ (run_intake posts processed fileOk).1, e.1 ≠ i := by
  rw [run_intake]
  suffices aux : ∀ (ps : List TgPost) (acc : List (Int × List Int) × List Int),
      (∀ e ∈ acc.1, e.1 ≠ i) →
      ∀ e ∈ (ps.foldl
        (fun acc post =>
          if post.id ∈ processed then acc
          else
            let arts := detect_articles post.text
            (if arts ≠ [] then
               (if fileOk post then acc.1 ++ [(post.id, arts)] else acc.1)
             else acc.1,
             acc.2 ++ [post.id])) acc).1, e.1 ≠ i by
    exact aux posts ([], processed) (by simp)
  intro ps
  induction ps with
  | nil =>
    intro acc hacc
    simpa using hacc
  | cons p ps' ih =>
    intro acc hacc
    rw [List.foldl_cons]
    refine ih _ ?_
    by_cases hp : p.id ∈ processed
    · simpa [hp] using hacc
    · intro e he
      simp only [if_neg hp] at he
      by_cases ha : detect_articles p.text ≠ []
      · by_cases hf : fileOk p = true
        · simp only [if_pos ha, if_pos hf] at he
          rcases List.mem_append.mp he with h1 | h1
          · exact hacc e h1
          · have he2 : e = (p.id, detect_articles p.text) := by simpa using h1
            rw [he2]
            intro hcontra
            have hpi : p.id = i := hcontra
            exact hp (hpi ▸ hi)
        · simp only [if_pos ha, if_neg hf] at he
          exact hacc e he
      · simp only [if_neg ha] at he
        exact hacc e he

/-- Witness for C9: a batch whose only post id `1` is already in the ledger
emits no record with id `1`. -/
theorem claim_C9_witness :
    ((1 : Int), ([] : List Int)) ∉
      (run_intake [TgPost.mk 1 "ст 1".data 0] [1] fun _ => true).1 :=
  fun h => claim_C9 [TgPost.mk 1 "ст 1".data 0] [1] (fun _ => true) 1 (by decide)
    (1, ([] : List Int)) h rfl

/-- Claim C10: after an intake run the saved ledger contains every fetched
post id — including posts with zero detected articles and posts whose
decision file failed to be written, since the id is appended outside both of
those checks — and it retains every previously processed id.  Such posts are
therefore skipped (claim C9) on later runs. -/
theorem claim_C10 (posts : List TgPost) (processed : List Int) (fileOk : TgPost → Bool) :
    (∀ p ∈ posts, p.id ∈ (run_intake posts processed fileOk).2) ∧
      ∀ j ∈ processed, j ∈ (run_intake posts processed fileOk).2 := by
  rw [run_intake]
  suffices aux : ∀ (ps : List TgPost) (acc : List (Int × List Int) × List Int),
      (∀ j ∈ acc.2, j ∈ (ps.foldl
        (fun acc post =>
          if post.id ∈ processed then acc
          else
            let arts := detect_articles post.text
            (if arts ≠ [] then
               (if fileOk post then acc.1 ++ [(post.id, arts)] else acc.1)
             else acc.1,
             acc.2 ++ [post.id])) acc).2) ∧
      (processed ⊆ acc.2 → ∀ p ∈ ps, p.id ∈ (ps.foldl
        (fun acc post =>
          if post.id ∈ processed then acc
          else
            let arts := detect_articles post.text
            (if arts ≠ [] then
               (if fileOk post then acc.1 ++ [(post.id, arts)] else acc.1)
             else acc.1,
             acc.2 ++ [post.id])) acc).2) by
    exact ⟨fun p hp => (aux posts ([], processed)).2 (fun j hj => hj) p hp,
      fun j hj => (aux posts ([], processed)).1 j hj⟩
  intro ps
  induction ps with
  | nil =>
    intro acc
    refine ⟨fun j hj => by simpa using hj, ?_⟩
    intro _ p hp
    exact absurd hp (by simp)
  | cons p ps' ih =>
    intro acc
    have hmono : ∀ j ∈ acc.2,
        j ∈ ((if p.id ∈ processed then acc
          else
            let arts := detect_articles p.text
            (if arts ≠ [] then
               (if fileOk p then acc.1 ++ [(p.id, arts)] else acc.1)
             else acc.1,
             acc.2 ++ [p.id])) : List (Int × List Int) × List Int).2 := by
      intro j hj
      by_cases hp : p.id ∈ processed
      · simpa [hp] using hj
      · simp only [if_neg hp]
        exact List.mem_append_left _ hj
    constructor
    · intro j hj
      rw [List.foldl_cons]
      exact (ih _).1 j (hmono j hj)
    · intro hsub q hq
      rw [List.foldl_cons]
      rcases List.mem_cons.mp hq with hq1 | hq1
      · subst hq1
        by_cases hp : q.id ∈ processed
        · exact (ih _).1 q.id (hmono q.id (hsub hp))
        · refine (ih _).1 q.id ?_
          simp only [if_neg hp]
          exact List.mem_append_right _ (by simp)
      · refine (ih _).2 (fun j hj => hmono j (hsub hj)) q hq1

/-- Witness for C10: a post with no detected articles and a failing file
write still gets its id appended to the ledger. -/
theorem claim_C10_witness :
    (2 : Int) ∈ (run_intake [TgPost.mk 2 "а".data 0] [] fun _ => false).2 :=
  (claim_C10 [TgPost.mk 2 "а".data 0] [] fun _ => false).1 (TgPost.mk 2 "а".data 0)
    (by decide)

end SudPraktika
